import Mathlib

/-!
Shallow embedding of the query-to-template streaming bridge of the `tmpl`
Go package: the prepared-statement cache (`prep`), the query executor
(`sql` with its wrappers `sqls` and `sqlr`), the background row producer,
the `ResultSet.Named` view, and the `Group` operator.

A channel is modelled by the finite list of values a consumer that drains
the stream observes, in order.  A worker that would block forever (a send
on a nil channel) is modelled by `Option.none`.  The background row
producer is modelled by the ordered trace of its observable events, with
the consumer's readiness abstracted as a send budget: the number of sends
the consumer accepts before the one-minute deadline fires.  The database
is an oracle structure giving each external call's outcome.
-/

namespace Tmpl

/-- Scalar values carried in a row (`[]interface{}` in the source).
`bytes s` models a `[]byte` column value whose text decoding is `s`;
the other constructors model the driver's remaining scalar kinds. -/
inductive DbVal where
  | int (n : Int)
  | str (s : String)
  | bytes (s : String)
  | boolean (b : Bool)
  | null
  deriving DecidableEq

/-- A record as it travels over the channels: `[]interface{}`. -/
abbrev Row := List DbVal

/-- `eq` from the source: slice equality by length check and per-index
comparison of the interface values. -/
def eq (a b : Row) : Bool :=
  a.length == b.length && (a.zip b).all fun p => decide (p.1 = p.2)

/-- The state of the `Group` worker's loop: `grp` and `inner` mirror the
goroutine's local variables (`inner = none` is Go's nil channel), and
`done` collects the groups already emitted and closed on `outer`. -/
structure GState where
  grp : Row
  inner : Option (List Row)
  done : List (Row × List Row)
  deriving DecidableEq

/-- The worker's state before the first record: `var grp []interface{}`
(nil, indistinguishable from an empty prefix by `eq`) and a nil `inner`. -/
def gInit : GState := ⟨[], none, []⟩

/-- One iteration of the `Group` loop body on record `rec`.  `none` models
the worker blocking forever: `inner <- vr` when `inner` is still nil. -/
def groupStep (nfields : Nat) (s : GState) (rec : Row) : Option GState :=
  let n := min rec.length nfields
  let fx := rec.take n
  let vr := rec.drop n
  if eq fx s.grp then
    match s.inner with
    | none => none
    | some rows => some ⟨s.grp, some (rows ++ [vr]), s.done⟩
  else
    match s.inner with
    | none => some ⟨fx, some [vr], s.done⟩
    | some rows => some ⟨fx, some [vr], s.done ++ [(s.grp, rows)]⟩

/-- The `for rec := range all` loop of the `Group` worker. -/
def groupFold (nfields : Nat) : List Row → GState → Option GState
  | [], s => some s
  | r :: rs, s =>
    match groupStep nfields s r with
    | none => none
    | some s2 => groupFold nfields rs s2

/-- What the consumer observes after the loop: the emitted groups, the
still-open inner channel closed at the end (`if inner != nil close`). -/
def groupOut (s : GState) : List (Row × List Row) :=
  match s.inner with
  | none => s.done
  | some rows => s.done ++ [(s.grp, rows)]

/-- `Group` from the source: the sequence of `(Group, Inner)` pairs a
consumer draining `outer` (and each inner channel) observes, or `none`
when the worker deadlocks and the outer channel is never closed. -/
def Group (nfields : Nat) (all : List Row) : Option (List (Row × List Row)) :=
  (groupFold nfields all gInit).map groupOut

/-- The key prefix a record is grouped by: its first `min nfields (length)`
values. -/
def keyOf (nfields : Nat) (r : Row) : Row := r.take (min r.length nfields)

/-- Input sorted by the first `nfields` columns, as `Group` needs it: equal
key prefixes occupy contiguous runs of positions. -/
def SortedByKey (nfields : Nat) (rows : List Row) : Prop :=
  ∀ k, k < rows.length → ∀ j, j < k → ∀ i, i < j →
    keyOf nfields (rows.getD i []) = keyOf nfields (rows.getD k []) →
    keyOf nfields (rows.getD i []) = keyOf nfields (rows.getD j [])

/-- The remainders pushed so far, in order: the inner contents of every
group emitted in state `s`. -/
def emitted (s : GState) : List Row := ((groupOut s).map Prod.snd).flatten

/-- The byte-array normalization applied to every scanned value:
`if vv, ok := v.([]byte); ok { retv[i] = string(vv) }`. -/
def conv : DbVal → DbVal
  | DbVal.bytes s => DbVal.str s
  | v => v

/-- Observable events of the background row producer, in the order they
happen: a tuple handed to the consumer, the diagnostics it logs, the
cursor release (`rows.Close`, with its success bit), and the deferred
close of the output channel. -/
inductive Ev where
  | sent (t : Row)
  | scanErrLogged
  | timeoutLogged
  | cursorClosed (ok : Bool)
  | closeErrLogged
  | chClosed
  deriving DecidableEq

/-- One cursor advance: `rows.Next()` returning a row that scans to the
given values, or a scan error (`Except.error ()`); the list ends where
`rows.Next()` first reports exhaustion. -/
abbrev Scan := Except Unit Row

/-- The producer's `for rows.Next()` loop.  `budget` is the number of
sends the consumer accepts before the one-shot minute deadline fires: a
send with no budget left hits the `<-to` branch and breaks out. -/
def loopEvents : List Scan → Nat → List Ev
  | [], _ => []
  | Except.error _ :: _, _ => [Ev.scanErrLogged]
  | Except.ok _ :: _, 0 => [Ev.timeoutLogged]
  | Except.ok r :: rest, b + 1 => Ev.sent (r.map conv) :: loopEvents rest b

/-- The full trace of one producer run: the loop, then `rows.Close()`
(whose failure, `closeFails`, is only logged), then the deferred
`close(ch)`. -/
def producerTrace (scans : List Scan) (budget : Nat) (closeFails : Bool) : List Ev :=
  (loopEvents scans budget
      ++ Ev.cursorClosed (!closeFails)
        :: (if closeFails then [Ev.closeErrLogged] else []))
    ++ [Ev.chClosed]

/-- The tuples a trace delivers to the consumer, in order. -/
def sentOf (tr : List Ev) : List Row :=
  tr.filterMap fun e =>
    match e with
    | Ev.sent t => some t
    | _ => none

/-- Recognizer for the cursor-release event. -/
def isCursorClose : Ev → Bool
  | Ev.cursorClosed _ => true
  | _ => false

/-- An opaque prepared-statement handle (`*sql.Stmt`). -/
abbrev Stmt := Nat

/-- An error value (`error`). -/
abbrev Err := String

/-- A query cursor (`*sql.Rows`): the outcome of its `Columns()` call and
its stream of row scans. -/
structure Cursor where
  columnsRes : Except Err (List String)
  scans : List Scan

/-- The database as an oracle: what `db.Prepare` and `stmt.Query` return
for each input. -/
structure Db where
  prepareRes : String → Except Err Stmt
  queryRes : Stmt → Row → Except Err Cursor

/-- The statement cache (`map[string]*sql.Stmt`) as an association list;
`h.stmt[query]` is the first binding of the key. -/
def stmtLookup : List (String × Stmt) → String → Option Stmt
  | [], _ => none
  | (k, v) :: rest, q => if k = q then some v else stmtLookup rest q

/-- `dbhandler.prep`: look the query text up in the cache, on a miss call
`db.Prepare` and, only on success, insert the handle.  The result is the
statement (or the error), the cache afterwards, and whether `db.Prepare`
was invoked. -/
def prep (db : Db) (h : List (String × Stmt)) (query : String) :
    Except Err Stmt × List (String × Stmt) × Bool :=
  match stmtLookup h query with
  | some stmt => (Except.ok stmt, h, false)
  | none =>
    match db.prepareRes query with
    | Except.error e => (Except.error e, h, true)
    | Except.ok stmt => (Except.ok stmt, h ++ [(query, stmt)], true)

/-- What `dbhandler.sql` returns: the synchronous result (column names and
the cursor the spawned producer will drain, or the error), the cache
afterwards, and whether the background producer goroutine was started. -/
structure SqlResult where
  res : Except Err (List String × Cursor)
  cache : List (String × Stmt)
  producerStarted : Bool

/-- `dbhandler.sql`: prepare, run the query, read the column names; any
failure among the three returns that error synchronously with no channel
and no producer; otherwise the columns are returned and the producer is
started on the cursor. -/
def sql (db : Db) (h : List (String × Stmt)) (query : String) (args : Row) :
    SqlResult :=
  match prep db h query with
  | (Except.error e, h2, _) => ⟨Except.error e, h2, false⟩
  | (Except.ok stmt, h2, _) =>
    match db.queryRes stmt args with
    | Except.error e => ⟨Except.error e, h2, false⟩
    | Except.ok rows =>
      match rows.columnsRes with
      | Except.error e => ⟨Except.error e, h2, false⟩
      | Except.ok retn => ⟨Except.ok (retn, rows), h2, true⟩

/-- `dbhandler.sqls`: drop the column list, keep the record channel. -/
def sqls (db : Db) (h : List (String × Stmt)) (query : String) (args : Row) :
    Except Err Cursor :=
  (sql db h query args).res.map fun p => p.2

/-- `dbhandler.sqlr`: bundle columns and records into a `ResultSet`. -/
def sqlr (db : Db) (h : List (String × Stmt)) (query : String) (args : Row) :
    Except Err (List String × Cursor) :=
  (sql db h query args).res

/-- `Except.isOk` spelt out, to state which paths return an error. -/
def isOkE {α β : Type} : Except α β → Bool
  | Except.ok _ => true
  | Except.error _ => false

/-- A database on which preparing and querying succeed but the cursor's
`Columns()` call fails: the third synchronous error path of `sql`. -/
def dbColsFail : Db :=
  ⟨fun _ => Except.ok 0, fun _ _ => Except.ok ⟨Except.error "cols", []⟩⟩

/-- `ResultSet`: the column list paired with the record stream (here: the
records a consumer draining the channel observes). -/
structure ResultSet where
  Columns : List String
  Records : List Row

/-- `m[k] = v` on a Go map modelled as an association list: replace the
binding of `k` if present, append it otherwise. -/
def mapInsert : List (String × DbVal) → String → DbVal → List (String × DbVal)
  | [], k, v => [(k, v)]
  | (k2, v2) :: rest, k, v =>
    if k2 = k then (k, v) :: rest else (k2, v2) :: mapInsert rest k v

/-- `m[k]` on the same model. -/
def mapLookup : List (String × DbVal) → String → Option DbVal
  | [], _ => none
  | (k2, v2) :: rest, k => if k2 = k then some v2 else mapLookup rest k

/-- The map built for one record: `for i, v := range r.Columns { m[v] =
rec[i] }` (column names zipped with the positionally aligned values). -/
def mkNamed (cols : List String) (rec : Row) : List (String × DbVal) :=
  (cols.zip rec).foldl (fun m p => mapInsert m p.1 p.2) []

/-- `ResultSet.Named`: the relay goroutine sends one map per record, in
record order, and closes the output when the source closes. -/
def ResultSet.Named (r : ResultSet) : List (List (String × DbVal)) :=
  r.Records.map (mkNamed r.Columns)

theorem eq_eq_true_iff (a b : Row) : eq a b = true ↔ a = b := by
  induction a generalizing b with
  | nil =>
    cases b with
    | nil => simp [eq]
    | cons y b => simp [eq]
  | cons x a ih =>
    cases b with
    | nil => simp [eq]
    | cons y b =>
      have hab := ih b
      simp only [eq, List.length_cons, List.zip_cons_cons, List.all_cons,
        Bool.and_eq_true, beq_iff_eq, decide_eq_true_eq, Nat.add_right_cancel_iff,
        List.cons.injEq] at hab ⊢
      constructor
      · rintro ⟨hlen, hx, hrest⟩
        exact ⟨hx, hab.mp ⟨hlen, hrest⟩⟩
      · rintro ⟨hx, hrest⟩
        have := hab.mpr hrest
        exact ⟨this.1, hx, this.2⟩

theorem groupStep_emitted (nfields : Nat) (s s2 : GState) (rec : Row)
    (h : groupStep nfields s rec = some s2) :
    emitted s2 = emitted s ++ [rec.drop (min rec.length nfields)] := by
  unfold groupStep at h
  by_cases he : eq (rec.take (min rec.length nfields)) s.grp = true
  · simp only [he, if_pos] at h
    cases hi : s.inner with
    | none => rw [hi] at h; exact absurd h (by simp)
    | some rows =>
      rw [hi] at h
      cases h
      simp [emitted, groupOut, hi]
  · simp only [he, if_neg, Bool.not_eq_true] at h
    cases hi : s.inner with
    | none =>
      rw [hi] at h
      cases h
      simp [emitted, groupOut, hi]
    | some rows =>
      rw [hi] at h
      cases h
      simp [emitted, groupOut, hi]

theorem groupFold_emitted (nfields : Nat) (rows : List Row) (s s2 : GState)
    (h : groupFold nfields rows s = some s2) :
    emitted s2 = emitted s ++ rows.map (fun r => r.drop (min r.length nfields)) := by
  induction rows generalizing s with
  | nil =>
    cases h
    simp
  | cons r rs ih =>
    unfold groupFold at h
    cases hs : groupStep nfields s r with
    | none => rw [hs] at h; exact absurd h (by simp)
    | some s1 =>
      rw [hs] at h
      have h1 := groupStep_emitted nfields s s1 r hs
      have h2 := ih s1 h
      rw [h2, h1]
      simp

theorem group_flatten_of_some (nfields : Nat) (rows : List Row)
    (gs : List (Row × List Row)) (hg : Group nfields rows = some gs) :
    (gs.map Prod.snd).flatten = rows.map (fun r => r.drop (min nfields r.length)) := by
  unfold Group at hg
  cases hf : groupFold nfields rows gInit with
  | none => rw [hf] at hg; exact absurd hg (by simp)
  | some s2 =>
    rw [hf] at hg
    have hgs : gs = groupOut s2 := by
      simpa using hg.symm
    have he := groupFold_emitted nfields rows gInit s2 hf
    have h0 : emitted gInit = [] := by rfl
    rw [h0] at he
    calc (gs.map Prod.snd).flatten = emitted s2 := by rw [hgs]; rfl
      _ = rows.map (fun r => r.drop (min r.length nfields)) := by simpa using he
      _ = rows.map (fun r => r.drop (min nfields r.length)) := by
            simp [Nat.min_comm]

/-- C3: `Group 1` on `[(1,"a"),(1,"b"),(2,"c")]` yields exactly the two
groups `((1), ["a","b"])` then `((2), ["c"])`, each inner closed. -/
theorem Group_two_groups_example :
    Group 1 [[DbVal.int 1, DbVal.str "a"], [DbVal.int 1, DbVal.str "b"],
             [DbVal.int 2, DbVal.str "c"]]
      = some [([DbVal.int 1], [[DbVal.str "a"], [DbVal.str "b"]]),
              ([DbVal.int 2], [[DbVal.str "c"]])] := by
  decide

/-- C1 (failing input): with `keyWidth = 0` and a non-empty input the
worker never opens a group — the nil initial key compares `eq`-equal to
the empty prefix of the first record — and then blocks forever sending
the record on the still-nil inner channel; no group is ever produced and
the outer channel never closes. -/
theorem Group_keyWidth0_blocks (r : Row) (rs : List Row) :
    Group 0 (r :: rs) = none := by
  have hstep : groupStep 0 gInit r = none := by
    unfold groupStep gInit
    simp [eq]
  unfold Group groupFold
  rw [hstep]
  rfl

/-- C2 (amended): whenever the grouping worker completes — `Group` returns
a value instead of deadlocking — concatenating the inner sequences of the
emitted groups, in emission order, reproduces exactly the remainders of
the input rows (each with its first `min keyWidth (length)` values
removed), in the original order; in particular for input pre-sorted on
the first `nfields` columns. -/
theorem Group_flatten_eq_remainders (nfields : Nat) (rows : List Row)
    (gs : List (Row × List Row)) (hsorted : SortedByKey nfields rows)
    (hg : Group nfields rows = some gs) :
    (gs.map Prod.snd).flatten = rows.map (fun r => r.drop (min nfields r.length)) :=
  group_flatten_of_some nfields rows gs hg

/-- C2 (counterexample to the claim as stated): the single-row input
`[[1]]` is trivially sorted by its first 0 columns, yet `Group 0` emits no
inner sequence at all (the worker deadlocks), so the concatenation of the
inner sequences cannot reproduce the remainder sequence `[[1]]`. -/
theorem Group_flatten_keyWidth0_cex :
    SortedByKey 0 [[DbVal.int 1]]
      ∧ ¬ ∃ gs, Group 0 [[DbVal.int 1]] = some gs
          ∧ (gs.map Prod.snd).flatten
              = [[DbVal.int 1]].map (fun r => r.drop (min 0 r.length)) := by
  constructor
  · intro k hk j hj i hi
    simp only [List.length_singleton] at hk
    omega
  · rintro ⟨gs, hgs, -⟩
    rw [Group_keyWidth0_blocks] at hgs
    exact absurd hgs (by simp)

/-- C2 (witness): a concrete sorted one-row input on which the grouping
worker completes and the flattened inner sequences equal the remainders. -/
theorem Group_flatten_eq_remainders_witness :
    ([([DbVal.int 1], [[DbVal.str "a"]])].map Prod.snd).flatten
      = [[DbVal.int 1, DbVal.str "a"]].map
          (fun r => r.drop (min 1 r.length)) :=
  Group_flatten_eq_remainders 1 [[DbVal.int 1, DbVal.str "a"]]
    [([DbVal.int 1], [[DbVal.str "a"]])]
    (by intro k hk j hj i hi; simp only [List.length_singleton] at hk; omega)
    (by decide)

theorem sentOf_producerTrace (scans : List Scan) (budget : Nat) (cf : Bool) :
    sentOf (producerTrace scans budget cf) = sentOf (loopEvents scans budget) := by
  unfold producerTrace sentOf
  cases cf <;> simp

theorem loopEvents_sent_all_ok (rows : List Row) (budget : Nat)
    (hb : rows.length ≤ budget) :
    sentOf (loopEvents (rows.map Except.ok) budget) = rows.map (List.map conv) := by
  induction rows generalizing budget with
  | nil => rfl
  | cons r rs ih =>
    cases budget with
    | zero => simp at hb
    | succ b =>
      have hb2 : rs.length ≤ b := by
        simpa using hb
      simp only [List.map_cons, loopEvents, sentOf, List.filterMap_cons]
      exact congrArg (List.cons (r.map conv)) (ih b hb2)

theorem loopEvents_sent_mem (scans : List Scan) (budget : Nat) (t : Row)
    (ht : t ∈ sentOf (loopEvents scans budget)) :
    ∃ r, Except.ok r ∈ scans ∧ t = r.map conv := by
  induction scans generalizing budget with
  | nil => exact absurd ht (by simp [loopEvents, sentOf])
  | cons sc rest ih =>
    cases sc with
    | error e => exact absurd ht (by simp [loopEvents, sentOf])
    | ok r =>
      cases budget with
      | zero => exact absurd ht (by simp [loopEvents, sentOf])
      | succ b =>
        simp only [loopEvents, sentOf, List.filterMap_cons, List.mem_cons] at ht
        cases ht with
        | inl hhead => exact ⟨r, by simp, hhead⟩
        | inr htail =>
          obtain ⟨r2, hr2, het⟩ := ih b htail
          exact ⟨r2, List.mem_cons_of_mem _ hr2, het⟩

theorem loopEvents_no_close (scans : List Scan) (budget : Nat) :
    (loopEvents scans budget).countP isCursorClose = 0 := by
  induction scans generalizing budget with
  | nil => rfl
  | cons sc rest ih =>
    cases sc with
    | error e => rfl
    | ok r =>
      cases budget with
      | zero => rfl
      | succ b =>
        simp only [loopEvents, List.countP_cons]
        rw [ih b]
        rfl

theorem loopEvents_no_closeErr (scans : List Scan) (budget : Nat) :
    Ev.closeErrLogged ∉ loopEvents scans budget := by
  induction scans generalizing budget with
  | nil => simp [loopEvents]
  | cons sc rest ih =>
    cases sc with
    | error e => simp [loopEvents]
    | ok r =>
      cases budget with
      | zero => simp [loopEvents]
      | succ b => simpa [loopEvents] using ih b

/-- C8: on every producer run — cursor exhausted, scan error or timeout,
any send budget — the cursor is released exactly once, the output channel
close is the last event, and a failing `rows.Close()` changes nothing in
the tuples delivered: it is only logged. -/
theorem producer_always_cleans_up (scans : List Scan) (budget : Nat) (cf : Bool) :
    (producerTrace scans budget cf).countP isCursorClose = 1
      ∧ (producerTrace scans budget cf).getLast? = some Ev.chClosed
      ∧ sentOf (producerTrace scans budget true)
          = sentOf (producerTrace scans budget false)
      ∧ (Ev.closeErrLogged ∈ producerTrace scans budget cf ↔ cf = true) := by
  refine ⟨?_, ?_, ?_, ?_⟩
  · unfold producerTrace
    rw [List.countP_append, List.countP_append, loopEvents_no_close]
    cases cf <;> rfl
  · unfold producerTrace
    exact List.getLast?_concat _
  · rw [sentOf_producerTrace, sentOf_producerTrace]
  · unfold producerTrace
    cases cf with
    | true => simp
    | false => simpa using loopEvents_no_closeErr scans budget

/-- C4: when no row-scan error occurs (the cursor yields `rows`, all
scanning cleanly) and the consumer receives every tuple before the
deadline (`budget` covers all rows), the produced sequence delivers
exactly one tuple per cursor row, in cursor order, and then closes; the
named view maps the delivered tuples one-to-one in the same order, and
whatever the grouping operator emits flattens back to the delivered
remainders in the same order — no transformation reorders. -/
theorem sql_delivers_all_rows_in_order (rows : List Row) (budget : Nat)
    (cf : Bool) (cols : List String) (hb : rows.length ≤ budget) :
    sentOf (producerTrace (rows.map Except.ok) budget cf)
        = rows.map (List.map conv)
      ∧ (sentOf (producerTrace (rows.map Except.ok) budget cf)).length
          = rows.length
      ∧ (producerTrace (rows.map Except.ok) budget cf).getLast?
          = some Ev.chClosed
      ∧ (ResultSet.Named
            ⟨cols, sentOf (producerTrace (rows.map Except.ok) budget cf)⟩)
          = (sentOf (producerTrace (rows.map Except.ok) budget cf)).map
              (mkNamed cols)
      ∧ ∀ nfields gs,
          Group nfields (sentOf (producerTrace (rows.map Except.ok) budget cf))
              = some gs →
            (gs.map Prod.snd).flatten
              = (sentOf (producerTrace (rows.map Except.ok) budget cf)).map
                  (fun r => r.drop (min nfields r.length)) := by
  have hsent : sentOf (producerTrace (rows.map Except.ok) budget cf)
      = rows.map (List.map conv) := by
    rw [sentOf_producerTrace]
    exact loopEvents_sent_all_ok rows budget hb
  refine ⟨hsent, by rw [hsent]; simp, ?_, rfl, ?_⟩
  · unfold producerTrace
    exact List.getLast?_concat _
  · intro nfields gs hg
    exact group_flatten_of_some nfields _ gs hg

/-- C4 (witness): two clean cursor rows with enough budget are delivered
as exactly those two tuples, in order. -/
theorem sql_delivers_all_rows_in_order_witness :
    sentOf (producerTrace [Except.ok [DbVal.int 1], Except.ok [DbVal.int 2]]
        2 false)
      = [[DbVal.int 1], [DbVal.int 2]] := by
  have h := (sql_delivers_all_rows_in_order [[DbVal.int 1], [DbVal.int 2]]
    2 false [] (by decide)).1
  simpa using h

/-- C6: every tuple the producer emits is the scanned row with each
byte-array value replaced by its text form and every other value
unchanged at its position: the emitted tuple is the `conv`-image of a
scanned row, `conv` sends `bytes` to `str` and fixes everything else. -/
theorem producer_converts_bytes (scans : List Scan) (budget : Nat) (cf : Bool) :
    (∀ t ∈ sentOf (producerTrace scans budget cf),
        ∃ r, Except.ok r ∈ scans ∧ t = r.map conv)
      ∧ (∀ s, conv (DbVal.bytes s) = DbVal.str s)
      ∧ (∀ v, (∀ s, v ≠ DbVal.bytes s) → conv v = v) := by
  refine ⟨?_, fun s => rfl, ?_⟩
  · intro t ht
    rw [sentOf_producerTrace] at ht
    exact loopEvents_sent_mem scans budget t ht
  · intro v hv
    cases v with
    | bytes s => exact absurd rfl (hv s)
    | int n => rfl
    | str s => rfl
    | boolean b => rfl
    | null => rfl

/-- C6 (witness): the tuple delivered for the scanned row
`[bytes "hi", int 2]` is its `conv`-image `[str "hi", int 2]`. -/
theorem producer_converts_bytes_witness :
    ∃ r, Except.ok r ∈ [(Except.ok [DbVal.bytes "hi", DbVal.int 2] : Scan)]
      ∧ [DbVal.str "hi", DbVal.int 2] = r.map conv :=
  (producer_converts_bytes [Except.ok [DbVal.bytes "hi", DbVal.int 2]]
      1 false).1
    [DbVal.str "hi", DbVal.int 2] (by decide)

theorem stmtLookup_append_of_none (h l : List (String × Stmt)) (q : String)
    (hq : stmtLookup h q = none) :
    stmtLookup (h ++ l) q = stmtLookup l q := by
  induction h with
  | nil => rfl
  | cons p rest ih =>
    obtain ⟨k, v⟩ := p
    simp only [stmtLookup, List.cons_append] at hq ⊢
    by_cases hk : k = q
    · rw [if_pos hk] at hq
      exact absurd hq (by simp)
    · rw [if_neg hk] at hq ⊢
      exact ih hq

theorem stmtLookup_append_of_some (h l : List (String × Stmt)) (q : String)
    (v : Stmt) (hq : stmtLookup h q = some v) :
    stmtLookup (h ++ l) q = some v := by
  induction h with
  | nil => simp [stmtLookup] at hq
  | cons p rest ih =>
    obtain ⟨k, w⟩ := p
    simp only [stmtLookup, List.cons_append] at hq ⊢
    by_cases hk : k = q
    · rw [if_pos hk] at hq ⊢
      exact hq
    · rw [if_neg hk] at hq ⊢
      exact ih hq

/-- C7: once `prep` has succeeded for a query text, the cache holds its
handle: a subsequent `prep` with the same text returns the same handle
and the same cache without invoking `db.Prepare` again, and no binding
present in the cache before the call is removed or replaced by it. -/
theorem prep_caches_statement (db : Db) (h : List (String × Stmt))
    (q : String) (s : Stmt) (h2 : List (String × Stmt)) (b : Bool)
    (hp : prep db h q = (Except.ok s, h2, b)) :
    prep db h2 q = (Except.ok s, h2, false)
      ∧ ∀ k v, stmtLookup h k = some v → stmtLookup h2 k = some v := by
  unfold prep at hp
  cases hl : stmtLookup h q with
  | some s0 =>
    rw [hl] at hp
    have hs : s0 = s := by
      simpa using congrArg (fun p => p.1) hp
    have hcache : h = h2 := by
      simpa using congrArg (fun p => p.2.1) hp
    constructor
    · unfold prep
      rw [← hcache, hl, hs]
    · intro k v hkv
      rw [← hcache]
      exact hkv
  | none =>
    rw [hl] at hp
    cases hpr : db.prepareRes q with
    | error e =>
      rw [hpr] at hp
      exact absurd (congrArg (fun p => p.1) hp) (by simp)
    | ok s1 =>
      rw [hpr] at hp
      have hs : s1 = s := by
        simpa using congrArg (fun p => p.1) hp
      have hcache : h ++ [(q, s1)] = h2 := by
        simpa using congrArg (fun p => p.2.1) hp
      constructor
      · unfold prep
        have : stmtLookup h2 q = some s := by
          rw [← hcache, stmtLookup_append_of_none h _ q hl, hs]
          simp [stmtLookup]
        rw [this]
      · intro k v hkv
        rw [← hcache]
        exact stmtLookup_append_of_some h _ k v hkv

/-- C7 (witness): preparing `"q"` on an empty cache succeeds and caches
the handle; the theorem then gives that a second `prep` of `"q"` returns
the cached handle without calling `db.Prepare`. -/
theorem prep_caches_statement_witness :
    prep ⟨fun _ => Except.ok 7, fun _ _ => Except.error "unused"⟩
        [("q", 7)] "q" = (Except.ok 7, [("q", 7)], false) :=
  (prep_caches_statement ⟨fun _ => Except.ok 7, fun _ _ => Except.error "unused"⟩
    [] "q" 7 [("q", 7)] true rfl).1

/-- C10: when the underlying `db.Prepare` fails on a cache miss, `prep`
returns that error with the cache unchanged — no entry is inserted for
the text — so a later call with the same text finds the same miss and
invokes `db.Prepare` again (the invoked flag is true on both). -/
theorem prep_error_leaves_cache (db : Db) (h : List (String × Stmt))
    (q : String) (e : Err) (hl : stmtLookup h q = none)
    (he : db.prepareRes q = Except.error e) :
    prep db h q = (Except.error e, h, true) := by
  unfold prep
  rw [hl, he]

/-- C10 (witness): a concrete failing prepare on the empty cache. -/
theorem prep_error_leaves_cache_witness :
    prep ⟨fun _ => Except.error "syntax", fun _ _ => Except.error "unused"⟩
        [] "bad" = (Except.error "syntax", [], true) :=
  prep_error_leaves_cache
    ⟨fun _ => Except.error "syntax", fun _ _ => Except.error "unused"⟩
    [] "bad" "syntax" rfl rfl

/-- C5 (amended): `sql` returns an error synchronously, with no columns,
no row sequence and no producer started, exactly when preparation, the
initial query call, or the retrieval of the column list fails; on success
it returns the column list with the live cursor and the producer is
started.  The wrappers `sqls` and `sqlr` succeed exactly when `sql`
does. -/
theorem sql_error_is_synchronous (db : Db) (h : List (String × Stmt))
    (q : String) (args : Row) :
    (sql db h q args).producerStarted = isOkE (sql db h q args).res
      ∧ (isOkE (sql db h q args).res = true ↔
          ∃ s cur cols, (prep db h q).1 = Except.ok s
            ∧ db.queryRes s args = Except.ok cur
            ∧ cur.columnsRes = Except.ok cols
            ∧ (sql db h q args).res = Except.ok (cols, cur))
      ∧ isOkE (sqls db h q args) = isOkE (sql db h q args).res
      ∧ isOkE (sqlr db h q args) = isOkE (sql db h q args).res := by
  rcases hp : prep db h q with ⟨pr, h2, pb⟩
  cases pr with
  | error e =>
    have hs : sql db h q args = ⟨Except.error e, h2, false⟩ := by
      simp [sql, hp]
    refine ⟨by rw [hs]; rfl, ?_, ?_, by rw [sqlr]⟩
    · rw [hs]
      simp only [isOkE, Bool.false_eq_true, false_iff]
      rintro ⟨s, cur, cols, hps, -, -, -⟩
      exact absurd hps (by simp)
    · rw [sqls, hs]
      rfl
  | ok s0 =>
    cases hq : db.queryRes s0 args with
    | error e =>
      have hs : sql db h q args = ⟨Except.error e, h2, false⟩ := by
        simp [sql, hp, hq]
      refine ⟨by rw [hs]; rfl, ?_, ?_, by rw [sqlr]⟩
      · rw [hs]
        simp only [isOkE, Bool.false_eq_true, false_iff]
        rintro ⟨s, cur, cols, hps, hqs, -, -⟩
        have hss : s0 = s := by
          simpa using hps
        rw [← hss, hq] at hqs
        exact absurd hqs (by simp)
      · rw [sqls, hs]
        rfl
    | ok cur =>
      cases hc : cur.columnsRes with
      | error e =>
        have hs : sql db h q args = ⟨Except.error e, h2, false⟩ := by
          simp [sql, hp, hq, hc]
        refine ⟨by rw [hs]; rfl, ?_, ?_, by rw [sqlr]⟩
        · rw [hs]
          simp only [isOkE, Bool.false_eq_true, false_iff]
          rintro ⟨s, cur2, cols, hps, hqs, hcs, -⟩
          have hss : s0 = s := by
            simpa using hps
          rw [← hss, hq] at hqs
          have hcc : cur = cur2 := by
            simpa using hqs
          rw [← hcc, hc] at hcs
          exact absurd hcs (by simp)
        · rw [sqls, hs]
          rfl
      | ok cols =>
        have hs : sql db h q args = ⟨Except.ok (cols, cur), h2, true⟩ := by
          simp [sql, hp, hq, hc]
        refine ⟨by rw [hs]; rfl, ?_, ?_, by rw [sqlr]⟩
        · rw [hs]
          simp only [isOkE, true_iff]
          exact ⟨s0, cur, cols, rfl, hq, hc, rfl⟩
        · rw [sqls, hs]
          rfl

/-- C5 (counterexample to the claim as stated): on `dbColsFail`, neither
statement preparation nor the initial query call fails, yet `sql` still
returns an error (the cursor's column-list retrieval failed) — so "error
exactly when preparation or the query call fails" does not hold. -/
theorem sql_error_not_only_prepare_query_cex :
    isOkE (prep dbColsFail [] "q").1 = true
      ∧ isOkE (dbColsFail.queryRes 0 []) = true
      ∧ (sql dbColsFail [] "q" []).res = Except.error "cols"
      ∧ (sql dbColsFail [] "q" []).producerStarted = false :=
  ⟨rfl, rfl, rfl, rfl⟩

theorem mapLookup_mapInsert_self (m : List (String × DbVal)) (k : String)
    (v : DbVal) : mapLookup (mapInsert m k v) k = some v := by
  induction m with
  | nil => simp [mapInsert, mapLookup]
  | cons p rest ih =>
    obtain ⟨k2, v2⟩ := p
    by_cases hk : k2 = k
    · simp [mapInsert, hk, mapLookup]
    · simp only [mapInsert, if_neg hk, mapLookup]
      exact ih

theorem mapLookup_mapInsert_ne (m : List (String × DbVal)) (k k3 : String)
    (v : DbVal) (hne : k3 ≠ k) :
    mapLookup (mapInsert m k v) k3 = mapLookup m k3 := by
  induction m with
  | nil =>
    simp only [mapInsert, mapLookup]
    rw [if_neg (fun hh => hne hh.symm)]
  | cons p rest ih =>
    obtain ⟨k2, v2⟩ := p
    by_cases hk : k2 = k
    · simp only [mapInsert, if_pos hk, mapLookup]
      rw [if_neg (fun hh => hne hh.symm), hk, if_neg (fun hh => hne hh.symm)]
    · simp only [mapInsert, if_neg hk, mapLookup]
      by_cases hk3 : k2 = k3
      · rw [if_pos hk3, if_pos hk3]
      · rw [if_neg hk3, if_neg hk3]
        exact ih

theorem mapLookup_foldl_of_not_mem (ps : List (String × DbVal))
    (m : List (String × DbVal)) (k : String)
    (hk : k ∉ ps.map Prod.fst) :
    mapLookup (ps.foldl (fun m2 p => mapInsert m2 p.1 p.2) m) k
      = mapLookup m k := by
  induction ps generalizing m with
  | nil => rfl
  | cons p rest ih =>
    obtain ⟨k2, v2⟩ := p
    simp only [List.map_cons, List.mem_cons] at hk
    push_neg at hk
    simp only [List.foldl_cons]
    rw [ih _ hk.2]
    exact mapLookup_mapInsert_ne m k2 k v2 hk.1

theorem mapLookup_foldl_of_mem (ps : List (String × DbVal))
    (m : List (String × DbVal)) (k : String) (v : DbVal)
    (hnd : (ps.map Prod.fst).Nodup) (hmem : (k, v) ∈ ps) :
    mapLookup (ps.foldl (fun m2 p => mapInsert m2 p.1 p.2) m) k = some v := by
  induction ps generalizing m with
  | nil => simp at hmem
  | cons p rest ih =>
    obtain ⟨k2, v2⟩ := p
    simp only [List.map_cons, List.nodup_cons] at hnd
    rcases List.mem_cons.mp hmem with hh | ht
    · have hk : k = k2 := congrArg Prod.fst hh
      have hv : v = v2 := congrArg Prod.snd hh
      simp only [List.foldl_cons]
      have hknot : k ∉ rest.map Prod.fst := by
        rw [hk]
        exact hnd.1
      rw [mapLookup_foldl_of_not_mem rest _ k hknot, ← hk, ← hv]
      exact mapLookup_mapInsert_self m k v
    · simp only [List.foldl_cons]
      exact ih _ hnd.2 ht

/-- C9: the named view emits exactly one mapping per record, in record
order, and in each mapping every column name is bound to the record value
at the same position (distinct column names, records at least as long as
the column list, as one query execution guarantees). -/
theorem Named_binds_columns (cols : List String) (recs : List Row)
    (hnd : cols.Nodup) (hlen : ∀ r ∈ recs, cols.length ≤ r.length) :
    (ResultSet.Named ⟨cols, recs⟩).length = recs.length
      ∧ ResultSet.Named ⟨cols, recs⟩ = recs.map (mkNamed cols)
      ∧ ∀ r ∈ recs, ∀ i, i < cols.length →
          mapLookup (mkNamed cols r) (cols.getD i "")
            = some (r.getD i DbVal.null) := by
  refine ⟨by simp [ResultSet.Named], rfl, ?_⟩
  intro r hr i hi
  have hle : cols.length ≤ r.length := hlen r hr
  have hir : i < r.length := lt_of_lt_of_le hi hle
  have hkeys : (cols.zip r).map Prod.fst = cols := List.map_fst_zip cols r hle
  have hnd2 : ((cols.zip r).map Prod.fst).Nodup := by
    rw [hkeys]
    exact hnd
  have hizip : i < (cols.zip r).length := by
    rw [List.length_zip]
    omega
  have hmem : (cols.getD i "", r.getD i DbVal.null) ∈ cols.zip r := by
    have h1 : cols.getD i "" = cols[i] := List.getD_eq_getElem cols "" hi
    have h2 : r.getD i DbVal.null = r[i] := List.getD_eq_getElem r _ hir
    have hg : (cols.zip r)[i] = (cols[i], r[i]) := List.getElem_zip
    rw [h1, h2, ← hg]
    exact List.getElem_mem hizip
  exact mapLookup_foldl_of_mem (cols.zip r) [] _ _ hnd2 hmem

/-- C9 (witness): for columns `["id","name"]` and the single record
`(1,"x")`, the named view is one mapping binding `id` to `1` and `name`
to `x`. -/
theorem Named_binds_columns_witness :
    (ResultSet.Named ⟨["id", "name"], [[DbVal.int 1, DbVal.str "x"]]⟩).length = 1
      ∧ mapLookup (mkNamed ["id", "name"] [DbVal.int 1, DbVal.str "x"]) "id"
          = some (DbVal.int 1)
      ∧ mapLookup (mkNamed ["id", "name"] [DbVal.int 1, DbVal.str "x"]) "name"
          = some (DbVal.str "x") := by
  have h := Named_binds_columns ["id", "name"] [[DbVal.int 1, DbVal.str "x"]]
    (by decide) (by
      intro r hr
      simp only [List.mem_singleton] at hr
      rw [hr]
      decide)
  refine ⟨h.1, ?_, ?_⟩
  · simpa using h.2.2 [DbVal.int 1, DbVal.str "x"] (by simp) 0 (by decide)
  · simpa using h.2.2 [DbVal.int 1, DbVal.str "x"] (by simp) 1 (by decide)

end Tmpl
